import Mathlib

/-!
Verification of the checkout-psp-client core (`checkout2/api.py`): the
signature canonicalizer, the HMAC sign/verify pair, the payment-request
builder, and the response dispatch logic, shallowly embedded in Lean.

Python strings are modelled as Lean `String`, byte strings (`bytes`) as
`List Nat` (each element a byte value), and Python dictionaries as
association lists in insertion order, which is how `dict` iterates.
The HMAC primitive itself (`hmac.new(...).hexdigest()`, an external
library) is a parameter of the definitions that use it.
-/

namespace Checkout2

/-- Python `bytes`: a list of byte values. -/
abbrev Bytes := List Nat

/-- Models `str.lower` on a single character: ASCII upper-case letters map
to lower case (header names in this API are ASCII). -/
def lowerChar (c : Char) : Char :=
  if 'A' ≤ c ∧ c ≤ 'Z' then Char.ofNat (c.toNat + 32) else c

/-- Models `str.lower` (on the ASCII range used by header names). -/
def lowerStr (s : String) : String := ⟨s.data.map lowerChar⟩

/-- Models `str.startswith`: `startsWithB pat s` is true when `pat` is an
initial segment of `s`. -/
def startsWithB : List Char → List Char → Bool
  | [], _ => true
  | _ :: _, [] => false
  | p :: ps, c :: cs => p == c && startsWithB ps cs

/-- The test `hn.startswith("checkout-")` from `signature_payload`
(api.py:66), applied to an already lowercased name. -/
def isCheckoutName (s : String) : Bool :=
  startsWithB "checkout-".data s.data

/-- Python string `<=`: lexicographic comparison by code point. -/
def charListLe : List Char → List Char → Bool
  | [], _ => true
  | _ :: _, [] => false
  | a :: as, b :: bs =>
    if a.toNat < b.toNat then true
    else if b.toNat < a.toNat then false
    else charListLe as bs

/-- The sort key comparison of `sorted(hs, key=lambda x: x[0])`
(api.py:69): compare pairs by their first component, Python string order. -/
def pairLe (a b : String × String) : Bool := charListLe a.1.data b.1.data

/-- Insert into a sorted list, before the first element not `le`-below the
inserted one; the stable insertion step of insertion sort. -/
def insertSorted (le : α → α → Bool) (a : α) : List α → List α
  | [] => [a]
  | b :: l => if le a b then a :: b :: l else b :: insertSorted le a l

/-- Stable insertion sort; models Python `sorted` with a key function
(Python's sort is stable and ascending in the key). -/
def sortBy (le : α → α → Bool) : List α → List α
  | [] => []
  | a :: l => insertSorted le a (sortBy le l)

/-- UTF-8 encoding of one code point, as byte values. -/
def utf8Encode (c : Nat) : List Nat :=
  if c < 0x80 then [c]
  else if c < 0x800 then [0xC0 + c / 0x40, 0x80 + c % 0x40]
  else if c < 0x10000 then
    [0xE0 + c / 0x1000, 0x80 + (c / 0x40) % 0x40, 0x80 + c % 0x40]
  else
    [0xF0 + c / 0x40000, 0x80 + (c / 0x1000) % 0x40,
     0x80 + (c / 0x40) % 0x40, 0x80 + c % 0x40]

/-- UTF-8 encoding of a character sequence. -/
def encodeChars : List Char → Bytes
  | [] => []
  | c :: cs => utf8Encode c.toNat ++ encodeChars cs

/-- Models Python `str.encode()` (UTF-8). -/
def strEncode (s : String) : Bytes := encodeChars s.data

/-- Models `sep.join(segments)` on byte strings. -/
def joinBytes (sep : Nat) : List Bytes → Bytes
  | [] => []
  | [x] => x
  | x :: y :: t => x ++ sep :: joinBytes sep (y :: t)

/-- The header-collection loop of `signature_payload` (api.py:63-67): for
each header in iteration (= insertion) order, lowercase the name and keep
the pair when the lowered name starts with `checkout-`. -/
def collectCheckout : List (String × String) → List (String × String)
  | [] => []
  | (hn, hd) :: rest =>
    let l := lowerStr hn
    if isCheckoutName l then (l, hd) :: collectCheckout rest
    else collectCheckout rest

/-- The per-pair encoding `hn.encode() + b":" + hd.encode()` (api.py:68). -/
def encPair (p : String × String) : Bytes :=
  strEncode p.1 ++ 58 :: strEncode p.2

/-- Models `signature_payload(headers, body)` (api.py:46-70): join with
newline bytes the encoded sorted checkout pairs followed by one more
segment, the body if present and the empty byte string otherwise. -/
def signature_payload (headers : List (String × String))
    (body : Option Bytes) : Bytes :=
  joinBytes 10
    ((sortBy pairLe (collectCheckout headers)).map encPair ++
      [match body with | some b => b | none => []])

/-- The signature algorithm described word for word by the spec (§4.1):
lowercase every header name, retain only names starting with `checkout-`,
sort retained pairs lexicographically by lowercased name, encode each pair
as `name:value`, join the pairs with single newline bytes, and append one
more newline-separated segment equal to the body if present and the empty
byte string otherwise. -/
def sigPayloadSpec (headers : List (String × String))
    (body : Option Bytes) : Bytes :=
  let lowered := headers.map (fun p => (lowerStr p.1, p.2))
  let kept := lowered.filter (fun p => isCheckoutName p.1)
  let sorted := sortBy pairLe kept
  let bodySeg : Bytes := match body with | some b => b | none => []
  joinBytes 10 (sorted.map encPair ++ [bodySeg])

/-- Python `dict` lookup `m[k]`: value of the (unique) entry with key `k`,
`none` when the key is absent (a `KeyError` in Python). -/
def dictLookup (m : List (String × String)) (k : String) : Option String :=
  match m with
  | [] => none
  | p :: rest => if p.1 == k then some p.2 else dictLookup rest k

/-- Python `dict` assignment `m[k] = v`: replaces the value of the (first,
and in a `dict` only) entry with key `k` in place, otherwise appends the
new entry at the end (insertion-order semantics of `dict`). -/
def dictSet : List (String × String) → String → String →
    List (String × String)
  | [], k, v => [(k, v)]
  | p :: t, k, v =>
    if p.1 == k then (p.1, v) :: t else p :: dictSet t k v

/-- Character-by-character equality scan with an early exit at the first
mismatch, returning the result and the number of character comparisons
performed: a step-count model of the short-circuiting `==` string
comparison used at api.py:268-272 (a length mismatch is detected before
any character is inspected). -/
def eqScan : List Char → List Char → Bool × Nat
  | [], [] => (true, 0)
  | [], _ :: _ => (false, 0)
  | _ :: _, [] => (false, 0)
  | a :: as, b :: bs =>
    if a == b then
      let r := eqScan as bs
      (r.1, r.2 + 1)
    else (false, 1)

/-- The boolean outcome of the short-circuit comparison. -/
def eqShortCircuit (s t : List Char) : Bool := (eqScan s t).1

/-- The number of character comparisons the short-circuit `==` of
api.py:268 performs on a received signature against the recomputed one. -/
def compareSigSteps (received computed : String) : Nat :=
  (eqScan received.data computed.data).2

/-- An HTTP response as the external `requests` library presents it to
`send_request`: a status code, response headers, and the raw body bytes
(`resp.content`, which is `b""` rather than `None` when empty). -/
structure HttpResponse where
  status_code : Nat
  headers : List (String × String)
  content : Bytes
deriving DecidableEq, Repr

/-- Models `requests.Response.ok`: true exactly when the status code is
below 400 (`raise_for_status` raises for 4xx and 5xx). -/
def HttpResponse.respOk (r : HttpResponse) : Bool := r.status_code < 400

/-- Error outcomes of the embedded operations. `typeError` and `keyError`
model the Python built-in exceptions of those names (the spec calls these
kinds `InvalidArgument` and `MissingField` respectively); the other two
model the exception classes defined at api.py:33-38, `ProviderError`
carrying the raw response as its `response` attribute does. -/
inductive ApiError where
  | typeError
  | keyError
  | providerError (resp : HttpResponse)
  | responseSignatureError
deriving DecidableEq, Repr

/-- Models `CheckoutAPI.sign_request` (api.py:227-253):
`hmac.new(self.secret_key.encode(), signature_payload(headers, body),
algorithm).hexdigest()`. The HMAC/hash library is external, so the
hex-digest primitive is the parameter `hmacHex` (secret key, algorithm
name, payload ↦ hex signature). -/
def sign_request (hmacHex : String → String → Bytes → String)
    (secret_key algorithm : String) (headers : List (String × String))
    (body : Option Bytes) : String :=
  hmacHex secret_key algorithm (signature_payload headers body)

/-- Models `CheckoutAPI.is_response_ok` (api.py:256-272): look up
`parameters["signature"]` and `parameters["checkout-algorithm"]` (in
Python's evaluation order; a missing key raises `KeyError`), then compare
the received signature with the recomputed one using the short-circuiting
string `==`. -/
def is_response_ok (hmacHex : String → String → Bytes → String)
    (secret_key : String) (parameters : List (String × String))
    (body : Option Bytes) : Except ApiError Bool :=
  match dictLookup parameters "signature" with
  | none => .error .keyError
  | some sig =>
    match dictLookup parameters "checkout-algorithm" with
    | none => .error .keyError
    | some alg =>
      .ok (eqShortCircuit sig.data
        (sign_request hmacHex secret_key alg parameters body).data)

/-- The customer sub-record built at api.py:127-135: email required,
the other fields present only when supplied. -/
structure Customer where
  email : String
  firstName : Option String
  lastName : Option String
  phone : Option String
  vatId : Option String
deriving DecidableEq, Repr

/-- One line item as `add_item` builds it (api.py:186-194); the delivery
date is stored already serialized (`delivery_date.isoformat()`). -/
structure LineItem where
  productCode : String
  deliveryDate : String
  unitPrice : Int
  units : Int
  vatPercentage : Int
  description : Option String
  category : Option String
deriving DecidableEq, Repr

/-- A success/cancel URL pair (the shape of `redirectUrls` and
`callbackUrls`). -/
structure UrlPair where
  success : String
  cancel : String
deriving DecidableEq, Repr

/-- The state of a `PaymentRequest` builder: the fields of `self._obj`
set by `__init__` (api.py:125-143) together with the accumulators
`_items` and `_total_amount`. Python integers are exact, so the amounts
are `Int`. -/
structure PaymentRequest where
  reference : String
  stamp : String
  currency : String
  language : String
  customer : Customer
  redirectUrls : UrlPair
  callbackUrls : Option UrlPair
  items : List LineItem
  total_amount : Int
deriving DecidableEq, Repr

/-- The document produced by the `jsonable` property (api.py:157-161):
`self._obj` with `items` and `amount` filled in from the accumulators. -/
structure PaymentDoc where
  reference : String
  stamp : String
  currency : String
  language : String
  customer : Customer
  redirectUrls : UrlPair
  callbackUrls : Option UrlPair
  items : List LineItem
  amount : Int
deriving DecidableEq, Repr

/-- Models the body of `PaymentRequest.__init__` (api.py:94-143) once all
arguments are bound. The construction timestamp (`datetime.now()
.timestamp()`, external clock) is passed in as the string `nowTimestamp`;
the stamp is `"{}@{}".format(reference, ...)`. -/
def PaymentRequest.init (reference redirect_success redirect_cancel
    email : String) (first_name last_name phone vat_id : Option String)
    (language : String) (nowTimestamp : String) : PaymentRequest :=
  { reference := reference
    stamp := reference ++ "@" ++ nowTimestamp
    currency := "EUR"
    language := language
    customer := ⟨email, first_name, last_name, phone, vat_id⟩
    redirectUrls := ⟨redirect_success, redirect_cancel⟩
    callbackUrls := none
    items := []
    total_amount := 0 }

/-- Models a call of `PaymentRequest(...)`: `reference`,
`redirect_success`, `redirect_cancel` and `email` are required positional
parameters, so omitting any of them is a Python `TypeError`; the optional
customer fields default to `None` and `language` defaults to `"FI"`
(api.py:94-103). -/
def PaymentRequest.initCall (reference redirect_success redirect_cancel
    email : Option String) (first_name last_name phone vat_id :
    Option String) (language : Option String) (nowTimestamp : String) :
    Except ApiError PaymentRequest :=
  match reference, redirect_success, redirect_cancel, email with
  | some r, some rs, some rc, some e =>
    .ok (PaymentRequest.init r rs rc e first_name last_name phone vat_id
      (language.getD "FI") nowTimestamp)
  | _, _, _, _ => .error .typeError

/-- Models `PaymentRequest.add_item` (api.py:163-196): append the item to
`_items` and add `unit_price * unit_count` to `_total_amount`. The method
performs no validation of any argument. -/
def PaymentRequest.add_item (pr : PaymentRequest)
    (product_code delivery_date : String)
    (unit_price unit_count vat_rate : Int)
    (description category : Option String) : PaymentRequest :=
  let item : LineItem :=
    { productCode := product_code, deliveryDate := delivery_date,
      unitPrice := unit_price, units := unit_count,
      vatPercentage := vat_rate, description := description,
      category := category }
  { pr with
      items := pr.items ++ [item],
      total_amount := pr.total_amount + unit_price * unit_count }

/-- Models the `jsonable` property (api.py:157-161). -/
def PaymentRequest.jsonable (pr : PaymentRequest) : PaymentDoc :=
  { reference := pr.reference
    stamp := pr.stamp
    currency := pr.currency
    language := pr.language
    customer := pr.customer
    redirectUrls := pr.redirectUrls
    callbackUrls := pr.callbackUrls
    items := pr.items
    amount := pr.total_amount }

/-- The arguments of one `add_item` call, for reasoning about sequences
of calls. -/
structure AddItemArgs where
  product_code : String
  delivery_date : String
  unit_price : Int
  unit_count : Int
  vat_rate : Int
  description : Option String
  category : Option String
deriving DecidableEq, Repr

/-- Folding a sequence of `add_item` calls over a builder state. -/
def addItems (pr : PaymentRequest) (ops : List AddItemArgs) :
    PaymentRequest :=
  ops.foldl (fun st op => st.add_item op.product_code op.delivery_date
    op.unit_price op.unit_count op.vat_rate op.description op.category) pr

/-- Models Python positional-argument binding for a plain function: the
call raises `TypeError` unless exactly as many positional arguments are
passed as there are parameters (none of `add_callback_urls`'s parameters
has a default). -/
def bindPositional (params : List String) (args : List String) :
    Except ApiError (List (String × String)) :=
  if args.length = params.length then .ok (params.zip args)
  else .error .typeError

/-- The formal parameter list of `add_callback_urls` as defined at
api.py:145: `def add_callback_urls(success, cancel)` — the `self`
parameter is missing from the source. -/
def add_callback_urls_params : List String := ["success", "cancel"]

/-- The behaviour §4.3 of the spec prescribes for `addCallbackUrls`
(modelled from the spec, since the source method cannot run): set the
document's `callbackUrls` sub-record to the given pair. -/
def add_callback_urls_spec (pr : PaymentRequest) (success cancel : String) :
    PaymentRequest :=
  { pr with callbackUrls := some ⟨success, cancel⟩ }

/-- Models `CheckoutResponse.__init__` (api.py:82-84): read the
`cof-request-id` header (`KeyError` when absent) and keep the parsed body;
JSON decoding is an external capability, so the raw bytes stand for the
parsed data. -/
structure CheckoutResponse where
  request_id : String
  data : Bytes
deriving DecidableEq, Repr

/-- Construction of the `CheckoutResponse` (api.py:82-84). -/
def mkCheckoutResponse (resp : HttpResponse) :
    Except ApiError CheckoutResponse :=
  match dictLookup resp.headers "cof-request-id" with
  | none => .error .keyError
  | some rid => .ok ⟨rid, resp.content⟩

/-- The response-handling tail of `send_request` (api.py:336-342): raise
`ProviderError(resp)` when the status is not ok, then raise
`ResponseSignatureError` when `is_response_ok(resp.headers,
resp.content)` is false, and only then build the typed response. -/
def send_request_handle (hmacHex : String → String → Bytes → String)
    (secret_key : String) (resp : HttpResponse) :
    Except ApiError CheckoutResponse :=
  if ¬ resp.respOk then .error (.providerError resp)
  else
    match is_response_ok hmacHex secret_key resp.headers
        (some resp.content) with
    | .error e => .error e
    | .ok b =>
      if b then mkCheckoutResponse resp else .error .responseSignatureError

/-- Models `str.format` far enough for the templates in this module:
consecutive `\x7b\x7d` replacement fields are replaced by the positional
arguments in order and every other character is copied verbatim. In
particular a template with no replacement field — such as `"%d"` at
api.py:360 — is returned unchanged, whatever the arguments. -/
def pyFormatAux : List Char → List String → List Char
  | [], _ => []
  | '{' :: '}' :: rest, a :: args => a.data ++ pyFormatAux rest args
  | c :: rest, args => c :: pyFormatAux rest args

/-- Models `template.format(args...)`. -/
def pyFormat (template : String) (args : List String) : String :=
  ⟨pyFormatAux template.data args⟩

/-- The bytes `urllib.parse.quote_plus` leaves unescaped: ASCII letters,
digits, and `_ . - ~`. -/
def isUrlSafe (c : Nat) : Bool :=
  (65 ≤ c && c ≤ 90) || (97 ≤ c && c ≤ 122) || (48 ≤ c && c ≤ 57) ||
    c == 45 || c == 46 || c == 95 || c == 126

/-- Upper-case hexadecimal digit. -/
def hexDigitChar (n : Nat) : Char :=
  if n < 10 then Char.ofNat (48 + n) else Char.ofNat (55 + n)

/-- Percent-encoding of one byte, as `urllib.parse.quote` writes it. -/
def pctEncode (b : Nat) : List Char :=
  ['%', hexDigitChar (b / 16), hexDigitChar (b % 16)]

/-- Models `urllib.parse.quote_plus`: spaces become `+`, safe bytes pass
through, every other byte of the UTF-8 encoding is percent-encoded. -/
def quote_plus (s : String) : String :=
  ⟨((strEncode s).map (fun b =>
    if b == 32 then ['+']
    else if isUrlSafe b then [Char.ofNat b]
    else pctEncode b)).flatten⟩

/-- Models `urllib.parse.urlencode` on string-valued keyword arguments:
`quote_plus(k)=quote_plus(v)` pairs joined with `&`. -/
def urlencode (kwargs : List (String × String)) : String :=
  String.intercalate "&"
    (kwargs.map (fun p => quote_plus p.1 ++ "=" ++ quote_plus p.2))

/-- Models `query_url(base, **kwargs)` (api.py:40-43) for a base that is a
bare path without query or fragment, as `list_providers` passes:
`urlparse(base)._replace(query=urlencode(kwargs)).geturl()` is then the
base followed by `?` and the encoded query. -/
def query_url (base : String) (kwargs : List (String × String)) : String :=
  base ++ "?" ++ urlencode kwargs

/-- The path `list_providers` requests (api.py:359-364): the `amount`
query value is `"%d".format(amount)` when an amount is given (`str.format`
on a template with no replacement field, so the argument is discarded) and
`None` otherwise (`urlencode` stringifies Python `None` to `"None"`). -/
def list_providers_path (amount : Option Int) : String :=
  query_url "/merchants/payment-providers"
    [("amount", match amount with
      | some a => pyFormat "%d" [toString a]
      | none => "None")]

/-- The unary byte encoding used by the demonstration HMAC: each byte `n`
becomes `n` letters `a` followed by one `b`, so distinct byte strings have
distinct encodings. -/
def unaryEnc : Bytes → List Char
  | [] => []
  | n :: t => List.replicate n 'a' ++ 'b' :: unaryEnc t

/-- A concrete injective stand-in for the external HMAC hex digest, used
to instantiate theorems whose hypotheses say the digest separates distinct
(algorithm, payload) pairs: the algorithm and the payload are unary-coded
on either side of a `|`. -/
def demoHmac (_key algorithm : String) (payload : Bytes) : String :=
  ⟨unaryEnc (strEncode algorithm) ++ '|' :: unaryEnc payload⟩

/-- The parameters map of the round-trip claim: the signed headers with
`checkout-algorithm` set to the algorithm and `signature` set to the
computed signature. -/
def verifyParams (hmacHex : String → String → Bytes → String)
    (key algorithm : String) (headers : List (String × String))
    (body : Option Bytes) : List (String × String) :=
  dictSet (dictSet headers "checkout-algorithm" algorithm) "signature"
    (sign_request hmacHex key algorithm headers body)

/-! Infrastructure lemmas: the character order, the stable sort, the joined
byte encoding, and UTF-8 injectivity. -/

theorem char_toNat_inj {c d : Char} (h : c.toNat = d.toNat) : c = d := by
  have hc := Char.ofNat_toNat c
  have hd := Char.ofNat_toNat d
  rw [h] at hc
  exact hc.symm.trans hd

theorem charListLe_total : ∀ s t : List Char,
    charListLe s t = true ∨ charListLe t s = true
  | [], _ => by left; rfl
  | _ :: _, [] => by right; rfl
  | a :: as, b :: bs => by
    rcases Nat.lt_trichotomy a.toNat b.toNat with h | h | h
    · left; simp [charListLe, h]
    · rcases charListLe_total as bs with ih | ih
      · left; simp [charListLe, h, ih]
      · right; simp [charListLe, h.symm, ih]
    · right; simp [charListLe, h]

theorem charListLe_trans : ∀ {s t u : List Char},
    charListLe s t = true → charListLe t u = true → charListLe s u = true
  | [], _, _, _, _ => rfl
  | a :: as, [], _, h, _ => by simp [charListLe] at h
  | a :: as, b :: bs, [], _, h => by simp [charListLe] at h
  | a :: as, b :: bs, c :: cs, h1, h2 => by
    simp only [charListLe] at h1 h2 ⊢
    split at h1
    next hab =>
      split at h2
      next hbc => simp [Nat.lt_trans hab hbc]
      next hbc =>
        split at h2
        next hcb => exact absurd h2 (by simp)
        next hcb => simp [show a.toNat < c.toNat by omega]
    next hab =>
      split at h1
      next hba => exact absurd h1 (by simp)
      next hba =>
        split at h2
        next hbc => simp [show a.toNat < c.toNat by omega]
        next hbc =>
          split at h2
          next hcb => exact absurd h2 (by simp)
          next hcb =>
            simp only [if_neg (show ¬ a.toNat < c.toNat by omega),
              if_neg (show ¬ c.toNat < a.toNat by omega)]
            exact charListLe_trans h1 h2

theorem charListLe_antisymm : ∀ {s t : List Char},
    charListLe s t = true → charListLe t s = true → s = t
  | [], [], _, _ => rfl
  | [], _ :: _, _, h => by simp [charListLe] at h
  | _ :: _, [], h, _ => by simp [charListLe] at h
  | a :: as, b :: bs, h1, h2 => by
    simp only [charListLe] at h1 h2
    rcases Nat.lt_trichotomy a.toNat b.toNat with h | h | h
    · simp only [if_neg (by omega : ¬ b.toNat < a.toNat),
        if_pos (by omega : a.toNat < b.toNat)] at h2
      exact absurd h2 (by simp)
    · simp only [if_neg (by omega : ¬ a.toNat < b.toNat),
        if_neg (by omega : ¬ b.toNat < a.toNat)] at h1 h2
      rw [char_toNat_inj h, charListLe_antisymm h1 h2]
    · simp only [if_neg (by omega : ¬ a.toNat < b.toNat),
        if_pos (by omega : b.toNat < a.toNat)] at h1
      exact absurd h1 (by simp)

theorem pairLe_total (a b : String × String) :
    pairLe a b = true ∨ pairLe b a = true := charListLe_total _ _

theorem pairLe_trans {a b c : String × String} (h1 : pairLe a b = true)
    (h2 : pairLe b c = true) : pairLe a c = true := charListLe_trans h1 h2

theorem pairLe_antisymm {a b : String × String} (h1 : pairLe a b = true)
    (h2 : pairLe b a = true) : a.1 = b.1 :=
  String.ext (charListLe_antisymm h1 h2)

theorem insertSorted_perm (le : α → α → Bool) (a : α) :
    ∀ l : List α, (insertSorted le a l).Perm (a :: l)
  | [] => List.Perm.refl _
  | b :: l => by
    by_cases h : le a b = true
    · simp [insertSorted, h]
    · simp only [insertSorted, h]
      exact ((insertSorted_perm le a l).cons b).trans (List.Perm.swap a b l)

theorem sortBy_perm (le : α → α → Bool) :
    ∀ l : List α, (sortBy le l).Perm l
  | [] => List.Perm.refl _
  | a :: l =>
    (insertSorted_perm le a (sortBy le l)).trans ((sortBy_perm le l).cons a)

theorem mem_insertSorted {le : α → α → Bool} {a x : α} {l : List α}
    (h : x ∈ insertSorted le a l) : x = a ∨ x ∈ l := by
  have := (insertSorted_perm le a l).mem_iff.mp h
  simpa using this

theorem pairwise_insertSorted
    (htot : ∀ a b : α, le a b = true ∨ le b a = true)
    (htr : ∀ {a b c : α}, le a b = true → le b c = true → le a c = true)
    (a : α) : ∀ {l : List α},
    l.Pairwise (fun x y => le x y = true) →
    (insertSorted le a l).Pairwise (fun x y => le x y = true) := by
  intro l
  induction l with
  | nil => intro _; simp [insertSorted]
  | cons b l ih =>
    intro hp
    rcases List.pairwise_cons.mp hp with ⟨hb, hl⟩
    by_cases h : le a b = true
    · simp only [insertSorted, if_pos h]
      refine List.pairwise_cons.mpr ⟨?_, hp⟩
      intro x hx
      rcases List.mem_cons.mp hx with heq | hx
      · subst heq; exact h
      · exact htr h (hb _ hx)
    · simp only [insertSorted, if_neg h]
      refine List.pairwise_cons.mpr ⟨?_, ih hl⟩
      intro x hx
      rcases mem_insertSorted hx with heq | hx
      · rw [heq]
        rcases htot a b with h' | h'
        · exact absurd h' h
        · exact h'
      · exact hb _ hx

theorem sortBy_pairwise
    (htot : ∀ a b : α, le a b = true ∨ le b a = true)
    (htr : ∀ {a b c : α}, le a b = true → le b c = true → le a c = true) :
    ∀ l : List α, (sortBy le l).Pairwise (fun x y => le x y = true)
  | [] => List.Pairwise.nil
  | a :: l => pairwise_insertSorted htot htr a (sortBy_pairwise htot htr l)

/-- Two sorted lists that are permutations of each other and whose keys are
pairwise distinct are equal (the comparison need only be antisymmetric up
to the key). -/
theorem sorted_perm_nodup_key_eq {le : α → α → Bool} {key : α → β}
    (hanti : ∀ {a b : α}, le a b = true → le b a = true → key a = key b) :
    ∀ {l₁ l₂ : List α}, l₁.Pairwise (fun x y => le x y = true) →
      l₂.Pairwise (fun x y => le x y = true) → l₁.Perm l₂ →
      (l₁.map key).Nodup → l₁ = l₂ := by
  intro l₁
  induction l₁ with
  | nil => intro l₂ _ _ hp _; exact (hp.nil_eq).symm ▸ rfl
  | cons a t₁ ih =>
    intro l₂ h₁ h₂ hp hnd
    cases l₂ with
    | nil => exact absurd hp.symm (by simp)
    | cons b t₂ =>
      by_cases hab : a = b
      · subst hab
        rcases List.pairwise_cons.mp h₁ with ⟨_, h₁'⟩
        rcases List.pairwise_cons.mp h₂ with ⟨_, h₂'⟩
        have := ih h₁' h₂' (hp.cons_inv) (by simpa using hnd.of_cons)
        rw [this]
      · have hamem : a ∈ b :: t₂ := hp.mem_iff.mp (by simp)
        have hbmem : b ∈ a :: t₁ := hp.symm.mem_iff.mp (by simp)
        have ha2 : a ∈ t₂ := by
          rcases hamem with _ | h
          · exact absurd rfl hab
          · assumption
        have hb1 : b ∈ t₁ := by
          rcases hbmem with _ | h
          · exact absurd rfl (fun e => hab e.symm)
          · assumption
        have hle1 : le a b = true :=
          (List.pairwise_cons.mp h₁).1 b hb1
        have hle2 : le b a = true :=
          (List.pairwise_cons.mp h₂).1 a ha2
        have hkey : key a = key b := hanti hle1 hle2
        exfalso
        have : key b ∈ t₁.map key := List.mem_map_of_mem key hb1
        rw [← hkey] at this
        exact (List.nodup_cons.mp hnd).1 this

theorem eqScan_fst_iff : ∀ s t : List Char, (eqScan s t).1 = true ↔ s = t
  | [], [] => by simp [eqScan]
  | [], _ :: _ => by simp [eqScan]
  | _ :: _, [] => by simp [eqScan]
  | a :: as, b :: bs => by
    by_cases h : a = b
    · subst h
      simp only [eqScan, beq_self_eq_true, if_pos]
      rw [eqScan_fst_iff as bs]
      simp
    · simp [eqScan, h, beq_eq_false_iff_ne.mpr h]

theorem eqShortCircuit_refl (s : List Char) : eqShortCircuit s s = true :=
  (eqScan_fst_iff s s).mpr rfl

theorem eqShortCircuit_ne {s t : List Char} (h : s ≠ t) :
    eqShortCircuit s t = false := by
  rcases h' : (eqScan s t).1 with _ | _
  · simpa [eqShortCircuit] using h'
  · exact absurd ((eqScan_fst_iff s t).mp h') h

theorem joinBytes_cons_of_ne_nil {sep : Nat} {l : List Bytes} (x : Bytes)
    (h : l ≠ []) : joinBytes sep (x :: l) = x ++ sep :: joinBytes sep l := by
  cases l with
  | nil => exact absurd rfl h
  | cons y t => rfl

/-- Changing one segment of a newline join, with the other segments fixed,
changes the joined bytes: the join is injective in each segment. -/
theorem joinBytes_seg_inj {sep : Nat} :
    ∀ (A : List Bytes) {y y' : Bytes} {Z : List Bytes},
      joinBytes sep (A ++ y :: Z) = joinBytes sep (A ++ y' :: Z) → y = y'
  | [], y, y', Z, h => by
    simp only [List.nil_append] at h
    cases Z with
    | nil => exact h
    | cons z Z' =>
      rw [joinBytes_cons_of_ne_nil y (by simp),
        joinBytes_cons_of_ne_nil y' (by simp)] at h
      exact List.append_cancel_right h
  | a :: A', y, y', Z, h => by
    rw [List.cons_append, List.cons_append,
      joinBytes_cons_of_ne_nil a (by simp),
      joinBytes_cons_of_ne_nil a (by simp)] at h
    exact joinBytes_seg_inj A' (by simpa using List.append_cancel_left h)

theorem char_toNat_lt (c : Char) : c.toNat < 0x110000 := by
  have h := c.valid
  have he : c.toNat = c.val.toNat := rfl
  rw [he]
  rcases h with h | h
  · omega
  · omega

theorem utf8Encode_ne_nil (c : Nat) : utf8Encode c ≠ [] := by
  unfold utf8Encode
  repeat' split
  all_goals simp

/-- UTF-8 is a prefix code: equal concatenations starting with encoded
code points force the code points and the remainders to agree. -/
theorem utf8Encode_cancel {a b : Nat} (ha : a < 0x110000)
    (hb : b < 0x110000) {r₁ r₂ : Bytes}
    (h : utf8Encode a ++ r₁ = utf8Encode b ++ r₂) : a = b ∧ r₁ = r₂ := by
  unfold utf8Encode at h
  repeat' split at h
  all_goals
    simp only [List.cons_append, List.nil_append, List.cons.injEq] at h
  all_goals
    first
      | exact ⟨h.1, h.2⟩
      | exact ⟨by omega, h.2.2⟩
      | exact ⟨by omega, h.2.2.2⟩
      | exact ⟨by omega, h.2.2.2.2⟩
      | exact absurd h.1 (by omega)

theorem encodeChars_inj : ∀ {l₁ l₂ : List Char},
    encodeChars l₁ = encodeChars l₂ → l₁ = l₂
  | [], [], _ => rfl
  | [], c :: cs, h => by
    exact absurd h.symm (by
      simp only [encodeChars]
      intro hx
      exact utf8Encode_ne_nil c.toNat (List.append_eq_nil.mp hx).1)
  | c :: cs, [], h => by
    exact absurd h (by
      simp only [encodeChars]
      intro hx
      exact utf8Encode_ne_nil c.toNat (List.append_eq_nil.mp hx).1)
  | c :: cs, d :: ds, h => by
    simp only [encodeChars] at h
    have hcd := utf8Encode_cancel (char_toNat_lt c) (char_toNat_lt d) h
    rw [char_toNat_inj hcd.1, encodeChars_inj hcd.2]

theorem strEncode_inj {s t : String} (h : strEncode s = strEncode t) :
    s = t := String.ext (encodeChars_inj h)


theorem encPair_inj_snd {n v v' : String}
    (h : encPair (n, v) = encPair (n, v')) : v = v' := by
  simp only [encPair] at h
  have h2 := List.append_cancel_left h
  have h3 : strEncode v = strEncode v' := by injection h2
  exact strEncode_inj h3

/-! Lemmas about the header-collection loop and the dictionary model. -/

theorem collectCheckout_eq_filter_map (m : List (String × String)) :
    collectCheckout m =
      (m.map (fun p => (lowerStr p.1, p.2))).filter
        (fun p => isCheckoutName p.1) := by
  induction m with
  | nil => rfl
  | cons p t ih =>
    rcases p with ⟨hn, hd⟩
    simp only [collectCheckout, List.map_cons, List.filter_cons]
    by_cases h : isCheckoutName (lowerStr hn) = true
    · simp [h, ih]
    · simp [h, ih, Bool.eq_false_iff.mpr h]

theorem collectCheckout_append (A B : List (String × String)) :
    collectCheckout (A ++ B) = collectCheckout A ++ collectCheckout B := by
  induction A with
  | nil => rfl
  | cons p t ih =>
    rcases p with ⟨hn, hd⟩
    simp only [List.cons_append, collectCheckout]
    by_cases h : isCheckoutName (lowerStr hn) = true
    · simp [h, ih]
    · simp [h, ih]

theorem mem_collectCheckout {k v : String} {m : List (String × String)}
    (hm : (k, v) ∈ m) (hc : isCheckoutName (lowerStr k) = true) :
    (lowerStr k, v) ∈ collectCheckout m := by
  rw [collectCheckout_eq_filter_map]
  refine List.mem_filter.mpr ⟨?_, hc⟩
  exact List.mem_map_of_mem _ hm

theorem collectCheckout_fst_mem {m : List (String × String)} {x : String}
    (h : x ∈ (collectCheckout m).map Prod.fst) :
    x ∈ m.map (fun q => lowerStr q.1) := by
  induction m with
  | nil => simp [collectCheckout] at h
  | cons p t ih =>
    rcases p with ⟨hn, hd⟩
    simp only [collectCheckout] at h
    by_cases hc : isCheckoutName (lowerStr hn) = true
    · rw [if_pos hc] at h
      simp only [List.map_cons, List.mem_cons] at h ⊢
      rcases h with h | h
      · exact Or.inl h
      · exact Or.inr (ih h)
    · rw [if_neg (by simpa using hc)] at h
      simp only [List.map_cons, List.mem_cons]
      exact Or.inr (ih h)

theorem collectCheckout_fst_nodup {m : List (String × String)}
    (h : (m.map (fun p => lowerStr p.1)).Nodup) :
    ((collectCheckout m).map Prod.fst).Nodup := by
  induction m with
  | nil => simp [collectCheckout]
  | cons p t ih =>
    rcases p with ⟨hn, hd⟩
    simp only [List.map_cons, List.nodup_cons] at h
    simp only [collectCheckout]
    by_cases hc : isCheckoutName (lowerStr hn) = true
    · rw [if_pos hc]
      simp only [List.map_cons, List.nodup_cons]
      exact ⟨fun hmem => h.1 (collectCheckout_fst_mem hmem), ih h.2⟩
    · rw [if_neg (by simpa using hc)]
      exact ih h.2

theorem dictLookup_dictSet_self :
    ∀ (m : List (String × String)) (k v : String),
      dictLookup (dictSet m k v) k = some v
  | [], k, v => by simp [dictSet, dictLookup]
  | p :: t, k, v => by
    by_cases hp : p.1 = k
    · simp [dictSet, dictLookup, hp]
    · have hb : (p.1 == k) = false := by simpa using hp
      simp [dictSet, dictLookup, hb, dictLookup_dictSet_self t k v]

theorem dictLookup_dictSet_other :
    ∀ (m : List (String × String)) {k k' v : String}, k' ≠ k →
      dictLookup (dictSet m k v) k' = dictLookup m k'
  | [], k, k', v, h => by
    simp [dictSet, dictLookup, show (k == k') = false by
      simpa using fun e => h e.symm]
  | p :: t, k, k', v, h => by
    by_cases hp : p.1 = k
    · have hbk : (p.1 == k) = true := by simpa using hp
      have hk' : (p.1 == k') = false := by
        simpa using fun e => h (e.symm.trans hp)
      simp [dictSet, dictLookup, hbk, hk']
    · have hb : (p.1 == k) = false := by simpa using hp
      simp only [dictSet, hb, Bool.false_eq_true, if_false, dictLookup]
      by_cases hk' : p.1 = k'
      · simp [hk']
      · simp [show (p.1 == k') = false by simpa using hk',
          dictLookup_dictSet_other t h]

theorem dictSet_self_of_mem :
    ∀ {m : List (String × String)} {k v : String},
      (m.map Prod.fst).Nodup → (k, v) ∈ m → dictSet m k v = m
  | [], k, v, _, hm => by simp at hm
  | p :: t, k, v, hnd, hm => by
    simp only [List.map_cons, List.nodup_cons] at hnd
    rcases List.mem_cons.mp hm with hm | hm
    · rw [← hm]
      simp [dictSet]
    · have hpk : p.1 ≠ k := by
        intro e
        exact hnd.1 (e ▸ List.mem_map_of_mem Prod.fst hm)
      have hb : (p.1 == k) = false := by simpa using hpk
      simp [dictSet, hb, dictSet_self_of_mem hnd.2 hm]

theorem mem_dictSet_of_ne :
    ∀ {m : List (String × String)} {k v : String} {p : String × String},
      p ∈ m → p.1 ≠ k → p ∈ dictSet m k v
  | [], k, v, p, hp, _ => by simp at hp
  | q :: t, k, v, p, hp, hne => by
    rcases List.mem_cons.mp hp with hp | hp
    · subst hp
      have hb : (p.1 == k) = false := by simpa using hne
      simp [dictSet, hb]
    · by_cases hq : q.1 = k
      · have hb : (q.1 == k) = true := by simpa using hq
        simp only [dictSet, hb, if_true]
        exact List.mem_cons_of_mem _ hp
      · have hb : (q.1 == k) = false := by simpa using hq
        simp only [dictSet, hb, Bool.false_eq_true, if_false]
        exact List.mem_cons_of_mem _ (mem_dictSet_of_ne hp hne)

theorem mem_dictSet_cases :
    ∀ {m : List (String × String)} {k v : String} {q : String × String},
      q ∈ dictSet m k v → q ∈ m ∨ q.1 = k
  | [], k, v, q, hq => by
    simp only [dictSet, List.mem_singleton] at hq
    exact Or.inr (by rw [hq])
  | p :: t, k, v, q, hq => by
    by_cases hp : p.1 = k
    · have hb : (p.1 == k) = true := by simpa using hp
      simp only [dictSet, hb, if_true, List.mem_cons] at hq
      rcases hq with hq | hq
      · exact Or.inr (by rw [hq]; exact hp)
      · exact Or.inl (List.mem_cons_of_mem _ hq)
    · have hb : (p.1 == k) = false := by simpa using hp
      simp only [dictSet, hb, Bool.false_eq_true, if_false,
        List.mem_cons] at hq
      rcases hq with hq | hq
      · exact Or.inl (List.mem_cons.mpr (Or.inl hq))
      · rcases mem_dictSet_cases hq with h' | h'
        · exact Or.inl (List.mem_cons_of_mem _ h')
        · exact Or.inr h'

theorem dictSet_fst_nodup :
    ∀ {m : List (String × String)} {k v : String},
      (m.map Prod.fst).Nodup → ((dictSet m k v).map Prod.fst).Nodup
  | [], k, v, _ => by simp [dictSet]
  | p :: t, k, v, hnd => by
    simp only [List.map_cons, List.nodup_cons] at hnd
    by_cases hp : p.1 = k
    · have hb : (p.1 == k) = true := by simpa using hp
      simp only [dictSet, hb, if_true, List.map_cons, List.nodup_cons]
      exact ⟨hnd.1, hnd.2⟩
    · have hb : (p.1 == k) = false := by simpa using hp
      simp only [dictSet, hb, Bool.false_eq_true, if_false, List.map_cons,
        List.nodup_cons]
      refine ⟨?_, dictSet_fst_nodup hnd.2⟩
      intro hmem
      rcases List.mem_map.mp hmem with ⟨q, hq, hfst⟩
      rcases mem_dictSet_cases hq with hq' | hq'
      · exact hnd.1 (hfst ▸ List.mem_map_of_mem Prod.fst hq')
      · exact hp (hfst ▸ hq')

theorem collectCheckout_dictSet_not_checkout :
    ∀ {m : List (String × String)} {k v : String},
      isCheckoutName (lowerStr k) = false →
      collectCheckout (dictSet m k v) = collectCheckout m
  | [], k, v, h => by simp [dictSet, collectCheckout, h]
  | p :: t, k, v, h => by
    by_cases hp : p.1 = k
    · have hb : (p.1 == k) = true := by simpa using hp
      simp only [dictSet, hb, if_true, collectCheckout]
      rw [show lowerStr p.1 = lowerStr k from hp ▸ rfl]
      simp [h]
    · have hb : (p.1 == k) = false := by simpa using hp
      simp only [dictSet, hb, Bool.false_eq_true, if_false, collectCheckout]
      by_cases hc : isCheckoutName (lowerStr p.1) = true
      · simp [hc, collectCheckout_dictSet_not_checkout h]
      · simp [Bool.eq_false_iff.mpr hc,
          collectCheckout_dictSet_not_checkout h]

theorem dictSet_split {k v v' : String} :
    ∀ {A : List (String × String)} (B : List (String × String)),
      ¬ k ∈ A.map Prod.fst →
      dictSet (A ++ (k, v) :: B) k v' = A ++ (k, v') :: B
  | [], B, _ => by simp [dictSet]
  | p :: A', B, hA => by
    simp only [List.map_cons, List.mem_cons] at hA
    push_neg at hA
    have hb : (p.1 == k) = false := by simpa using Ne.symm hA.1
    show dictSet ((p :: A') ++ (k, v) :: B) k v' = (p :: A') ++ (k, v') :: B
    rw [List.cons_append, List.cons_append]
    simp only [dictSet, hb, Bool.false_eq_true, if_false]
    rw [dictSet_split B hA.2]

/-! Sorting lemmas specialised to the header pair comparison. -/

theorem sortBy_pairLe_pairwise (l : List (String × String)) :
    (sortBy pairLe l).Pairwise (fun x y => pairLe x y = true) :=
  sortBy_pairwise pairLe_total (fun h1 h2 => pairLe_trans h1 h2) l

/-- Sorting by name is insensitive to the order of the input list when the
names are pairwise distinct. -/
theorem sortBy_pairLe_eq_of_perm {l₁ l₂ : List (String × String)}
    (hperm : l₁.Perm l₂) (hnd : (l₁.map Prod.fst).Nodup) :
    sortBy pairLe l₁ = sortBy pairLe l₂ := by
  refine @sorted_perm_nodup_key_eq (String × String) String pairLe Prod.fst
    (fun h1 h2 => pairLe_antisymm h1 h2) _ _
    (sortBy_pairLe_pairwise l₁) (sortBy_pairLe_pairwise l₂) ?_ ?_
  · exact (sortBy_perm pairLe l₁).trans (hperm.trans (sortBy_perm pairLe l₂).symm)
  · exact (List.Perm.nodup_iff ((sortBy_perm pairLe l₁).map Prod.fst)).mpr hnd

theorem insertSorted_pairLe_map {g : String × String → String × String}
    (hg : ∀ x, (g x).1 = x.1) (a : String × String) :
    ∀ l : List (String × String),
      insertSorted pairLe (g a) (l.map g) = (insertSorted pairLe a l).map g
  | [] => rfl
  | b :: l => by
    have hle : pairLe (g a) (g b) = pairLe a b := by
      simp only [pairLe, hg]
    simp only [List.map_cons, insertSorted, hle]
    by_cases h : pairLe a b = true
    · simp [h]
    · simp only [h, Bool.false_eq_true, if_false, List.map_cons]
      rw [insertSorted_pairLe_map hg a l]

theorem sortBy_pairLe_map {g : String × String → String × String}
    (hg : ∀ x, (g x).1 = x.1) :
    ∀ l : List (String × String),
      sortBy pairLe (l.map g) = (sortBy pairLe l).map g
  | [] => rfl
  | a :: l => by
    simp only [List.map_cons, sortBy]
    rw [sortBy_pairLe_map hg l]
    exact insertSorted_pairLe_map hg a (sortBy pairLe l)

/-! Payload-difference lemmas used for the tamper-detection direction of
the sign/verify round trip. -/

theorem signature_payload_body_ne (m : List (String × String))
    {b b' : Bytes} (hne : b' ≠ b) :
    signature_payload m (some b') ≠ signature_payload m (some b) := by
  intro h
  simp only [signature_payload] at h
  exact hne (joinBytes_seg_inj _ h)

theorem map_fixes_of_fst_ne {l : List (String × String)}
    {lkn v' : String} (h : lkn ∉ l.map Prod.fst) :
    l.map (fun q => if q.1 == lkn then (q.1, v') else q) = l := by
  refine (List.map_congr_left ?_).trans (List.map_id _)
  intro q hq
  have hne : q.1 ≠ lkn := fun e => h (e ▸ List.mem_map_of_mem Prod.fst hq)
  simp [show (q.1 == lkn) = false by simpa using hne]

/-- Changing the value of one `checkout-` header (with distinct raw keys
and distinct lowercased checkout names) changes the signature payload. -/
theorem signature_payload_value_ne
    {m : List (String × String)} {kn v v' : String} {body : Option Bytes}
    (hraw : (m.map Prod.fst).Nodup)
    (hlow : ((collectCheckout m).map Prod.fst).Nodup)
    (hmem : (kn, v) ∈ m)
    (hck : isCheckoutName (lowerStr kn) = true)
    (hne : v' ≠ v) :
    signature_payload (dictSet m kn v') body ≠ signature_payload m body := by
  obtain ⟨A, B, hAB⟩ := List.mem_iff_append.mp hmem
  subst hAB
  have hfst : ((A ++ (kn, v) :: B).map Prod.fst) =
      A.map Prod.fst ++ kn :: B.map Prod.fst := by simp
  rw [hfst] at hraw
  have hknA : ¬ kn ∈ A.map Prod.fst := by
    have := List.nodup_middle.mp hraw
    exact fun hx => (List.nodup_cons.mp this).1 (List.mem_append_left _ hx)
  have hset : dictSet (A ++ (kn, v) :: B) kn v' = A ++ (kn, v') :: B :=
    dictSet_split B hknA
  have hcoll : ∀ w : String, collectCheckout (A ++ (kn, w) :: B) =
      collectCheckout A ++ (lowerStr kn, w) :: collectCheckout B := by
    intro w
    rw [collectCheckout_append]
    simp [collectCheckout, hck]
  have hlow' : ((collectCheckout A ++ (lowerStr kn, v) ::
      collectCheckout B).map Prod.fst).Nodup := by
    rw [← hcoll v]; exact hlow
  have hlowsplit : (lowerStr kn) ∉ (collectCheckout A).map Prod.fst ∧
      (lowerStr kn) ∉ (collectCheckout B).map Prod.fst := by
    have h1 : ((collectCheckout A).map Prod.fst ++ lowerStr kn ::
        (collectCheckout B).map Prod.fst).Nodup := by
      simpa using hlow'
    have h2 := List.nodup_middle.mp h1
    have h3 := (List.nodup_cons.mp h2).1
    exact ⟨fun hx => h3 (List.mem_append_left _ hx),
      fun hx => h3 (List.mem_append_right _ hx)⟩
  intro hpay
  set lkn := lowerStr kn with hlkn
  set g : String × String → String × String :=
    fun q => if q.1 == lkn then (q.1, v') else q with hg
  have hgfst : ∀ x : String × String, (g x).1 = x.1 := by
    intro x
    simp only [hg]
    split <;> rfl
  have hmapg : (collectCheckout A ++ (lkn, v) :: collectCheckout B).map g =
      collectCheckout A ++ (lkn, v') :: collectCheckout B := by
    rw [List.map_append, List.map_cons]
    congr 1
    · rw [hg]
      exact map_fixes_of_fst_ne hlowsplit.1
    · congr 1
      · simp [hg]
      · rw [hg]
        exact map_fixes_of_fst_ne hlowsplit.2
  -- decompose the sorted collected list around the unique lkn entry
  have hmemL : (lkn, v) ∈ sortBy pairLe
      (collectCheckout A ++ (lkn, v) :: collectCheckout B) :=
    (sortBy_perm pairLe _).mem_iff.mpr (by simp)
  obtain ⟨SA, SB, hS⟩ := List.mem_iff_append.mp hmemL
  have hndS : ((sortBy pairLe (collectCheckout A ++ (lkn, v) ::
      collectCheckout B)).map Prod.fst).Nodup :=
    (List.Perm.nodup_iff ((sortBy_perm pairLe _).map Prod.fst)).mpr hlow'
  rw [hS] at hndS
  have hSsplit : lkn ∉ SA.map Prod.fst ∧ lkn ∉ SB.map Prod.fst := by
    have h1 : (SA.map Prod.fst ++ lkn :: SB.map Prod.fst).Nodup := by
      simpa using hndS
    have h2 := (List.nodup_cons.mp (List.nodup_middle.mp h1)).1
    exact ⟨fun hx => h2 (List.mem_append_left _ hx),
      fun hx => h2 (List.mem_append_right _ hx)⟩
  have hsorted' : sortBy pairLe (collectCheckout A ++ (lkn, v') ::
      collectCheckout B) = SA ++ (lkn, v') :: SB := by
    rw [← hmapg, sortBy_pairLe_map hgfst, hS, List.map_append, List.map_cons]
    congr 1
    · rw [hg]
      exact map_fixes_of_fst_ne hSsplit.1
    · congr 1
      · simp [hg]
      · rw [hg]
        exact map_fixes_of_fst_ne hSsplit.2
  -- compare the two payloads segmentwise
  simp only [signature_payload, hset, hcoll v, hcoll v', hS, hsorted'] at hpay
  rw [List.map_append, List.map_append, List.map_cons, List.map_cons,
    List.append_assoc, List.append_assoc, List.cons_append,
    List.cons_append] at hpay
  have := joinBytes_seg_inj (SA.map encPair) hpay
  exact hne (encPair_inj_snd this)

/-! Lookup of a present key, injectivity of the demonstration HMAC, and a
small lemma about `List.set`. -/

theorem dictLookup_of_mem_nodup :
    ∀ {m : List (String × String)} {k v : String},
      (m.map Prod.fst).Nodup → (k, v) ∈ m → dictLookup m k = some v
  | [], k, v, _, hm => by simp at hm
  | p :: t, k, v, hnd, hm => by
    simp only [List.map_cons, List.nodup_cons] at hnd
    rcases List.mem_cons.mp hm with hm | hm
    · rw [← hm]
      simp [dictLookup]
    · have hpk : p.1 ≠ k := fun e =>
        hnd.1 (e ▸ List.mem_map_of_mem Prod.fst hm)
      simp [dictLookup, show (p.1 == k) = false by simpa using hpk,
        dictLookup_of_mem_nodup hnd.2 hm]

theorem signature_payload_congr {m₁ m₂ : List (String × String)}
    (h : collectCheckout m₁ = collectCheckout m₂) (body : Option Bytes) :
    signature_payload m₁ body = signature_payload m₂ body := by
  simp [signature_payload, h]

theorem mem_unaryEnc :
    ∀ {p : Bytes} {c : Char}, c ∈ unaryEnc p → c = 'a' ∨ c = 'b'
  | [], c, h => by simp [unaryEnc] at h
  | n :: t, c, h => by
    simp only [unaryEnc, List.mem_append, List.mem_cons] at h
    rcases h with h | h | h
    · exact Or.inl (List.eq_of_mem_replicate h)
    · exact Or.inr h
    · exact mem_unaryEnc h

theorem bar_not_mem_unaryEnc (p : Bytes) : ¬ ('|' ∈ unaryEnc p) := by
  intro h
  rcases mem_unaryEnc h with h | h <;> exact absurd h (by decide)

theorem splitBar :
    ∀ {xs₁ ys₁ xs₂ ys₂ : List Char}, ¬ ('|' ∈ xs₁) → ¬ ('|' ∈ xs₂) →
      xs₁ ++ '|' :: ys₁ = xs₂ ++ '|' :: ys₂ → xs₁ = xs₂ ∧ ys₁ = ys₂
  | [], ys₁, [], ys₂, _, _, h => ⟨rfl, by injection h⟩
  | [], ys₁, c :: xs₂', ys₂, _, h2, h => by
    injection h with h1 _
    exact absurd (by rw [h1]; exact List.mem_cons_self _ _) h2
  | c :: xs₁', ys₁, [], ys₂, h1, _, h => by
    injection h with ha _
    exact absurd (by rw [← ha]; exact List.mem_cons_self _ _) h1
  | c :: xs₁', ys₁, d :: xs₂', ys₂, h1, h2, h => by
    injection h with ha hb
    have hrec := splitBar (fun hx => h1 (List.mem_cons_of_mem _ hx))
      (fun hx => h2 (List.mem_cons_of_mem _ hx)) hb
    exact ⟨by rw [ha, hrec.1], hrec.2⟩

theorem replicate_bar_cancel :
    ∀ {n m : Nat} {t₁ t₂ : List Char},
      List.replicate n 'a' ++ 'b' :: t₁ = List.replicate m 'a' ++ 'b' :: t₂ →
      n = m ∧ t₁ = t₂
  | 0, 0, t₁, t₂, h => ⟨rfl, by injection h⟩
  | 0, m + 1, t₁, t₂, h => by
    rw [List.replicate_succ] at h
    injection h with h1 _
    exact absurd h1 (by decide)
  | n + 1, 0, t₁, t₂, h => by
    rw [List.replicate_succ] at h
    injection h with h1 _
    exact absurd h1 (by decide)
  | n + 1, m + 1, t₁, t₂, h => by
    rw [List.replicate_succ, List.replicate_succ] at h
    injection h with _ h2
    have hrec := replicate_bar_cancel h2
    exact ⟨by omega, hrec.2⟩

theorem unaryEnc_inj : ∀ {p₁ p₂ : Bytes}, unaryEnc p₁ = unaryEnc p₂ → p₁ = p₂
  | [], [], _ => rfl
  | [], n :: t, h => absurd h.symm (by simp [unaryEnc])
  | n :: t, [], h => absurd h (by simp [unaryEnc])
  | n :: t₁, m :: t₂, h => by
    simp only [unaryEnc] at h
    have hc := replicate_bar_cancel h
    rw [hc.1, unaryEnc_inj hc.2]

theorem demoHmac_inj (key : String) {a₁ a₂ : String} {p₁ p₂ : Bytes}
    (h : demoHmac key a₁ p₁ = demoHmac key a₂ p₂) : a₁ = a₂ ∧ p₁ = p₂ := by
  have hd : unaryEnc (strEncode a₁) ++ '|' :: unaryEnc p₁ =
      unaryEnc (strEncode a₂) ++ '|' :: unaryEnc p₂ :=
    congrArg String.data h
  have hs := splitBar (bar_not_mem_unaryEnc _) (bar_not_mem_unaryEnc _) hd
  exact ⟨strEncode_inj (unaryEnc_inj hs.1), unaryEnc_inj hs.2⟩

theorem set_ne_of_get_ne :
    ∀ {l : Bytes} {i : Nat} {x : Nat} (hi : i < l.length),
      x ≠ l.get ⟨i, hi⟩ → l.set i x ≠ l
  | [], i, x, hi, _ => by simp at hi
  | a :: t, 0, x, hi, hx => by
    simp only [List.set]
    intro e
    injection e with e1 _
    exact hx (e1 ▸ rfl)
  | a :: t, i + 1, x, hi, hx => by
    simp only [List.set]
    intro e
    injection e with _ e2
    exact set_ne_of_get_ne (by simpa using hi) (by simpa using hx) e2

/-! The sign/verify round trip. -/

/-- C1 (amended): when the signed headers already carry the entry
`checkout-algorithm = algorithm` — as every map the dispatcher signs does —
and the digest separates distinct (algorithm, payload) pairs, then
(1) verifying the headers extended with the computed `signature` succeeds;
(2) changing any single byte of the body makes verification return false;
(3) changing the value of any `checkout-` header (signature left in
place) makes verification return false. -/
theorem C1_sign_verify_roundtrip
    (hmacHex : String → String → Bytes → String) (key algorithm : String)
    (headers : List (String × String)) (body : Option Bytes)
    (Hinj : ∀ a₁ p₁ a₂ p₂, hmacHex key a₁ p₁ = hmacHex key a₂ p₂ →
      a₁ = a₂ ∧ p₁ = p₂)
    (Hlow : (headers.map (fun p => lowerStr p.1)).Nodup)
    (Halg : ("checkout-algorithm", algorithm) ∈ headers) :
    is_response_ok hmacHex key
        (verifyParams hmacHex key algorithm headers body) body = .ok true
    ∧ (∀ b i x, body = some b → ∀ hi : i < b.length, x ≠ b.get ⟨i, hi⟩ →
        is_response_ok hmacHex key
          (verifyParams hmacHex key algorithm headers body)
          (some (b.set i x)) = .ok false)
    ∧ (∀ kn v v', (kn, v) ∈ headers →
        isCheckoutName (lowerStr kn) = true → v' ≠ v →
        is_response_ok hmacHex key
          (dictSet (verifyParams hmacHex key algorithm headers body) kn v')
          body = .ok false) := by
  have hrawnd : (headers.map Prod.fst).Nodup := by
    refine List.Nodup.of_map lowerStr ?_
    rw [List.map_map]
    exact Hlow
  have hset1 : dictSet headers "checkout-algorithm" algorithm = headers :=
    dictSet_self_of_mem hrawnd Halg
  set s := sign_request hmacHex key algorithm headers body with hs
  have hparams : verifyParams hmacHex key algorithm headers body =
      dictSet headers "signature" s := by
    rw [verifyParams, hset1]
  have hsigNC : isCheckoutName (lowerStr "signature") = false := rfl
  have hcoll : collectCheckout (dictSet headers "signature" s) =
      collectCheckout headers :=
    collectCheckout_dictSet_not_checkout hsigNC
  have hpay : ∀ bb, signature_payload (dictSet headers "signature" s) bb =
      signature_payload headers bb :=
    fun bb => signature_payload_congr hcoll bb
  have hlooksig : dictLookup (dictSet headers "signature" s) "signature" =
      some s := dictLookup_dictSet_self _ _ _
  have hlookalg : dictLookup (dictSet headers "signature" s)
      "checkout-algorithm" = some algorithm := by
    rw [dictLookup_dictSet_other _ (by decide)]
    exact dictLookup_of_mem_nodup hrawnd Halg
  refine ⟨?_, ?_, ?_⟩
  · rw [hparams]
    simp only [is_response_ok, hlooksig, hlookalg]
    have heq : sign_request hmacHex key algorithm
        (dictSet headers "signature" s) body = s := by
      simp only [sign_request]
      rw [hpay body, hs]
      rfl
    rw [heq, eqShortCircuit_refl]
  · intro b i x hbody hi hx
    subst hbody
    rw [hparams]
    simp only [is_response_ok, hlooksig, hlookalg]
    have hbne : b.set i x ≠ b := set_ne_of_get_ne hi hx
    have hpne : signature_payload (dictSet headers "signature" s)
        (some (b.set i x)) ≠
        signature_payload (dictSet headers "signature" s) (some b) :=
      signature_payload_body_ne _ hbne
    have hsu : s = hmacHex key algorithm
        (signature_payload headers (some b)) := hs
    have hsne : ¬ s = sign_request hmacHex key algorithm
        (dictSet headers "signature" s) (some (b.set i x)) := by
      intro e
      have h2 := (Hinj algorithm (signature_payload headers (some b))
        algorithm (signature_payload (dictSet headers "signature" s)
          (some (b.set i x))) (hsu.symm.trans e)).2
      rw [← hpay (some b)] at h2
      exact hpne h2.symm
    rw [eqShortCircuit_ne (fun e => hsne (String.ext e))]
  · intro kn v v' hmemh hck hne
    rw [hparams]
    have hknsig : kn ≠ "signature" := by
      intro e
      rw [e, hsigNC] at hck
      exact Bool.noConfusion hck
    have hmemp : (kn, v) ∈ dictSet headers "signature" s :=
      mem_dictSet_of_ne hmemh hknsig
    have hlooksig' : dictLookup
        (dictSet (dictSet headers "signature" s) kn v') "signature" =
        some s := by
      rw [dictLookup_dictSet_other _ (Ne.symm hknsig)]
      exact hlooksig
    by_cases hka : kn = "checkout-algorithm"
    · subst hka
      have hv : v = algorithm := by
        have h1 := dictLookup_of_mem_nodup hrawnd hmemh
        have h2 := dictLookup_of_mem_nodup hrawnd Halg
        rw [h1] at h2
        injection h2
      have hlookalg' : dictLookup (dictSet (dictSet headers "signature" s)
          "checkout-algorithm" v') "checkout-algorithm" = some v' :=
        dictLookup_dictSet_self _ _ _
      simp only [is_response_ok, hlooksig', hlookalg']
      have hsu : s = hmacHex key algorithm
          (signature_payload headers body) := hs
      have hsne : ¬ s = sign_request hmacHex key v'
          (dictSet (dictSet headers "signature" s)
            "checkout-algorithm" v') body := by
        intro e
        have h1 := (Hinj algorithm (signature_payload headers body)
          v' (signature_payload (dictSet (dictSet headers "signature" s)
            "checkout-algorithm" v') body) (hsu.symm.trans e)).1
        exact hne (h1.symm.trans hv.symm)
      rw [eqShortCircuit_ne (fun e => hsne (String.ext e))]
    · have hlookalg' : dictLookup
          (dictSet (dictSet headers "signature" s) kn v')
          "checkout-algorithm" = some algorithm := by
        rw [dictLookup_dictSet_other _ (fun e => hka e.symm)]
        exact hlookalg
      simp only [is_response_ok, hlooksig', hlookalg']
      have hrawp : ((dictSet headers "signature" s).map Prod.fst).Nodup :=
        dictSet_fst_nodup hrawnd
      have hlowp : ((collectCheckout
          (dictSet headers "signature" s)).map Prod.fst).Nodup := by
        rw [hcoll]
        exact collectCheckout_fst_nodup Hlow
      have hpne := @signature_payload_value_ne
        (dictSet headers "signature" s) kn v v' body hrawp hlowp hmemp hck hne
      have hsu : s = hmacHex key algorithm
          (signature_payload headers body) := hs
      have hsne : ¬ s = sign_request hmacHex key algorithm
          (dictSet (dictSet headers "signature" s) kn v') body := by
        intro e
        have h2 := (Hinj algorithm (signature_payload headers body)
          algorithm (signature_payload
            (dictSet (dictSet headers "signature" s) kn v') body)
          (hsu.symm.trans e)).2
        rw [← hpay body] at h2
        exact hpne h2.symm
      rw [eqShortCircuit_ne (fun e => hsne (String.ext e))]

/-- Witness for C1: a concrete round trip with the demonstration digest —
verification succeeds on the untouched message, and fails when the body
byte is changed or the value of the `checkout-a` header is changed. -/
theorem C1_sign_verify_roundtrip_witness :
    is_response_ok demoHmac "k"
        (verifyParams demoHmac "k" "x"
          [("checkout-a", "m"), ("checkout-algorithm", "x")] (some [7]))
        (some [7]) = .ok true
    ∧ is_response_ok demoHmac "k"
        (verifyParams demoHmac "k" "x"
          [("checkout-a", "m"), ("checkout-algorithm", "x")] (some [7]))
        (some [8]) = .ok false
    ∧ is_response_ok demoHmac "k"
        (dictSet (verifyParams demoHmac "k" "x"
          [("checkout-a", "m"), ("checkout-algorithm", "x")] (some [7]))
          "checkout-a" "n") (some [7]) = .ok false := by
  obtain ⟨h1, h2, h3⟩ := C1_sign_verify_roundtrip demoHmac "k" "x"
    [("checkout-a", "m"), ("checkout-algorithm", "x")] (some [7])
    (fun a₁ p₁ a₂ p₂ h => demoHmac_inj "k" h)
    (by decide) (by decide)
  refine ⟨h1, ?_,
    h3 "checkout-a" "m" "n" (by decide) (by decide) (by decide)⟩
  have hb := h2 [7] 0 8 rfl (by decide) (by decide)
  simpa using hb

/-- Counterexample to C1 as stated: for a headers map that does not itself
contain a `checkout-algorithm` entry (here the empty map), verifying the
headers extended with `checkout-algorithm` and the computed `signature`
returns false rather than true, because the added `checkout-algorithm`
entry enters the recomputed payload but was absent from the signed one. -/
theorem C1_counterexample :
    is_response_ok demoHmac "k"
      (verifyParams demoHmac "k" "x" [] (some [7])) (some [7]) =
      .ok false := by rfl

/-- C4: the implemented `signature_payload` coincides with the
specification's six-step description, and — for a header set whose
lowercased names are distinct, the HeaderSet invariant — the payload is
the same for any permutation of the insertion order. -/
theorem C4_signature_payload_spec (headers : List (String × String))
    (body : Option Bytes) :
    signature_payload headers body = sigPayloadSpec headers body
    ∧ (∀ headers₂, headers.Perm headers₂ →
        (headers.map (fun p => lowerStr p.1)).Nodup →
        signature_payload headers₂ body = signature_payload headers body) := by
  constructor
  · simp only [signature_payload, sigPayloadSpec,
      collectCheckout_eq_filter_map]
  · intro h₂ hperm hnd
    simp only [signature_payload]
    have hpc : (collectCheckout h₂).Perm (collectCheckout headers) := by
      rw [collectCheckout_eq_filter_map, collectCheckout_eq_filter_map]
      exact (hperm.symm.map _).filter _
    have hnd₂ : ((collectCheckout h₂).map Prod.fst).Nodup := by
      refine collectCheckout_fst_nodup ?_
      exact ((hperm.map (fun p => lowerStr p.1)).nodup_iff).mp hnd
    rw [sortBy_pairLe_eq_of_perm hpc hnd₂]

/-- Witness for C4: a concrete two-header map and a permutation of it
produce the same payload. -/
theorem C4_signature_payload_spec_witness :
    signature_payload [("Checkout-B", "2"), ("checkout-a", "1")] (some [7]) =
      sigPayloadSpec [("Checkout-B", "2"), ("checkout-a", "1")] (some [7])
    ∧ signature_payload [("checkout-a", "1"), ("Checkout-B", "2")]
        (some [7]) =
      signature_payload [("Checkout-B", "2"), ("checkout-a", "1")]
        (some [7]) := by
  obtain ⟨h1, h2⟩ := C4_signature_payload_spec
    [("Checkout-B", "2"), ("checkout-a", "1")] (some [7])
  exact ⟨h1, h2 [("checkout-a", "1"), ("Checkout-B", "2")]
    (by decide) (by decide)⟩

/-- C10: the signature depends only on the body and on the header entries
whose lowercased name starts with `checkout-`: maps agreeing on those
entries (as a multiset, with distinct lowercased names) sign identically,
and setting any non-`checkout-` key — `signature`, `content-type`,
`cof-request-id` — never changes the signature. -/
theorem C10_sign_depends_only_on_checkout
    (hmacHex : String → String → Bytes → String)
    (key algorithm : String) (body : Option Bytes) :
    (∀ m₁ m₂ : List (String × String),
      (collectCheckout m₁).Perm (collectCheckout m₂) →
      ((collectCheckout m₁).map Prod.fst).Nodup →
      sign_request hmacHex key algorithm m₁ body =
        sign_request hmacHex key algorithm m₂ body)
    ∧ (∀ (m : List (String × String)) (k v : String),
        isCheckoutName (lowerStr k) = false →
        sign_request hmacHex key algorithm (dictSet m k v) body =
          sign_request hmacHex key algorithm m body) := by
  constructor
  · intro m₁ m₂ hperm hnd
    simp only [sign_request, signature_payload]
    rw [sortBy_pairLe_eq_of_perm hperm hnd]
  · intro m k v h
    simp only [sign_request]
    rw [signature_payload_congr (collectCheckout_dictSet_not_checkout h)]

/-- Witness for C10: two maps agreeing on their checkout entries but
differing in `content-type`, `signature` and `cof-request-id` entries sign
identically, and setting `signature` on a map leaves the signature
unchanged. -/
theorem C10_sign_depends_only_on_checkout_witness :
    sign_request demoHmac "k" "x"
        [("checkout-a", "1"), ("content-type", "json")] (some [7]) =
      sign_request demoHmac "k" "x"
        [("signature", "zz"), ("checkout-a", "1"), ("cof-request-id", "9")]
        (some [7])
    ∧ sign_request demoHmac "k" "x"
        (dictSet [("checkout-a", "1")] "signature" "zz") (some [7]) =
      sign_request demoHmac "k" "x" [("checkout-a", "1")] (some [7]) := by
  obtain ⟨h1, h2⟩ := C10_sign_depends_only_on_checkout demoHmac "k" "x"
    (some [7])
  exact ⟨h1 [("checkout-a", "1"), ("content-type", "json")]
      [("signature", "zz"), ("checkout-a", "1"), ("cof-request-id", "9")]
      (by decide) (by decide),
    h2 [("checkout-a", "1")] "signature" "zz" (by decide)⟩

/-- C2 (amended): the signature comparison inside `is_response_ok` is the
plain short-circuiting string `==` — extensionally an equality test whose
comparison count stops at the first mismatching character — and not a
constant-time comparison: equal-length inputs can take different numbers
of comparisons against the same computed signature. -/
theorem C2_comparison_short_circuits
    (hmacHex : String → String → Bytes → String) (key : String)
    (parameters : List (String × String)) (body : Option Bytes)
    (sig alg : String)
    (hsig : dictLookup parameters "signature" = some sig)
    (halg : dictLookup parameters "checkout-algorithm" = some alg) :
    is_response_ok hmacHex key parameters body =
      .ok (eqShortCircuit sig.data
        (sign_request hmacHex key alg parameters body).data)
    ∧ (∀ s t : List Char, eqShortCircuit s t = true ↔ s = t)
    ∧ (∃ r₁ r₂ c : List Char, r₁.length = r₂.length ∧
        (eqScan r₁ c).2 ≠ (eqScan r₂ c).2) := by
  refine ⟨?_, eqScan_fst_iff, ?_⟩
  · simp only [is_response_ok, hsig, halg]
  · exact ⟨"bb".data, "ab".data, "ab".data, rfl, by decide⟩

/-- Witness for C2 (amended): the comparison on a concrete parameters map
with the demonstration digest. -/
theorem C2_comparison_short_circuits_witness :
    is_response_ok demoHmac "k"
      [("signature", "zz"), ("checkout-algorithm", "x")] (some [7]) =
      .ok (eqShortCircuit "zz".data (sign_request demoHmac "k" "x"
        [("signature", "zz"), ("checkout-algorithm", "x")]
        (some [7])).data) :=
  (C2_comparison_short_circuits demoHmac "k"
    [("signature", "zz"), ("checkout-algorithm", "x")] (some [7]) "zz" "x"
    rfl rfl).1

/-- Counterexample to C2 as stated: the comparison is not constant-time —
against the same computed signature `abcd`, the received value `zbcd`
(mismatch at the first character) and the received value `abcz` (mismatch
at the last character) have the same length but take different numbers of
character comparisons. -/
theorem C2_counterexample :
    "zbcd".length = "abcz".length ∧
    compareSigSteps "zbcd" "abcd" ≠ compareSigSteps "abcz" "abcd" :=
  ⟨rfl, by decide⟩

/-- C3: after any sequence of `add_item` calls on a freshly constructed
`PaymentRequest`, the document produced by `jsonable` carries an `amount`
equal to the exact integer sum of unitPrice × unitCount over the added
items. -/
theorem C3_total_amount_invariant
    (reference redirect_success redirect_cancel email : String)
    (first_name last_name phone vat_id : Option String)
    (language nowTimestamp : String) (ops : List AddItemArgs) :
    ((addItems (PaymentRequest.init reference redirect_success
        redirect_cancel email first_name last_name phone vat_id language
        nowTimestamp) ops).jsonable).amount =
      (ops.map (fun op => op.unit_price * op.unit_count)).sum := by
  have hkey : ∀ (l : List AddItemArgs) (pr : PaymentRequest),
      (addItems pr l).total_amount = pr.total_amount +
        (l.map (fun op => op.unit_price * op.unit_count)).sum := by
    intro l
    induction l with
    | nil => intro pr; simp [addItems]
    | cons op t ih =>
      intro pr
      simp only [addItems, List.foldl_cons] at ih ⊢
      rw [ih]
      simp only [PaymentRequest.add_item, List.map_cons, List.sum_cons]
      ring
  simp [PaymentRequest.jsonable, hkey, PaymentRequest.init]

/-- C5: the response handling of `send_request`: a 4xx/5xx status fails
with `ProviderError` carrying the raw response; an ok status whose
signature verification returns false fails with `ResponseSignatureError`;
and a typed response is returned only when the status is ok and
verification returned true. -/
theorem C5_send_request_dispatch
    (hmacHex : String → String → Bytes → String) (key : String)
    (resp : HttpResponse) :
    (400 ≤ resp.status_code →
      send_request_handle hmacHex key resp = .error (.providerError resp))
    ∧ (resp.status_code < 400 →
        is_response_ok hmacHex key resp.headers (some resp.content) =
          .ok false →
        send_request_handle hmacHex key resp =
          .error .responseSignatureError)
    ∧ (∀ r, send_request_handle hmacHex key resp = .ok r →
        resp.status_code < 400 ∧
        is_response_ok hmacHex key resp.headers (some resp.content) =
          .ok true) := by
  refine ⟨?_, ?_, ?_⟩
  · intro h
    have hok : resp.respOk = false := by
      simp [HttpResponse.respOk, Nat.not_lt.mpr h]
    simp [send_request_handle, hok]
  · intro h hv
    have hok : resp.respOk = true := by
      simp [HttpResponse.respOk, h]
    simp [send_request_handle, hok, hv]
  · intro r h
    simp only [send_request_handle] at h
    by_cases hst : resp.respOk = true
    · rw [if_neg (fun hc => hc hst)] at h
      refine ⟨by simpa [HttpResponse.respOk] using hst, ?_⟩
      rcases hio : is_response_ok hmacHex key resp.headers
          (some resp.content) with e | b
      · rw [hio] at h
        simp at h
      · rw [hio] at h
        rcases b with _ | _
        · simp at h
        · rfl
    · rw [if_pos (by simpa using hst)] at h
      simp at h

/-- Witness for C5: a 402 response fails with `ProviderError` wrapping
that response, and a 200 response with a wrong signature fails with
`ResponseSignatureError`. -/
theorem C5_send_request_dispatch_witness :
    send_request_handle demoHmac "k" ⟨402, [], []⟩ =
      .error (.providerError ⟨402, [], []⟩)
    ∧ send_request_handle demoHmac "k"
        ⟨200, [("signature", "zz"), ("checkout-algorithm", "x")], [7]⟩ =
      .error .responseSignatureError := by
  refine ⟨(C5_send_request_dispatch demoHmac "k" _).1 (by decide), ?_⟩
  exact (C5_send_request_dispatch demoHmac "k" _).2.1 (by decide) (by rfl)

/-- C6 (amended): constructing with the reference, the email, or either
redirect URL absent fails with `TypeError` (the spec's InvalidArgument
kind); the language parameter, however, has the default `"FI"`, so its
absence does not fail; and `add_item` performs no validation of the unit
count — any integer, also a non-positive one, is accepted and recorded. -/
theorem C6_builder_validation
    (reference redirect_success redirect_cancel email : Option String)
    (first_name last_name phone vat_id : Option String)
    (language : Option String) (nowTimestamp : String) :
    ((reference = none ∨ redirect_success = none ∨
        redirect_cancel = none ∨ email = none) →
      PaymentRequest.initCall reference redirect_success redirect_cancel
        email first_name last_name phone vat_id language nowTimestamp =
        .error .typeError)
    ∧ (∀ r rs rc e, PaymentRequest.initCall (some r) (some rs) (some rc)
        (some e) first_name last_name phone vat_id none nowTimestamp =
        .ok (PaymentRequest.init r rs rc e first_name last_name phone
          vat_id "FI" nowTimestamp))
    ∧ (∀ (pr : PaymentRequest) pc dd up uc vr de ca,
        (pr.add_item pc dd up uc vr de ca).items =
          pr.items ++ [⟨pc, dd, up, uc, vr, de, ca⟩]
        ∧ (pr.add_item pc dd up uc vr de ca).total_amount =
          pr.total_amount + up * uc) := by
  refine ⟨?_, ?_, ?_⟩
  · intro h
    rcases reference with _ | r
    · rfl
    · rcases redirect_success with _ | rs
      · rfl
      · rcases redirect_cancel with _ | rc
        · rfl
        · rcases email with _ | e
          · rfl
          · simp at h
  · intro r rs rc e
    rfl
  · intro pr pc dd up uc vr de ca
    exact ⟨rfl, rfl⟩

/-- Witness for C6 (amended): a missing redirect URL fails with
`TypeError`; a construction without a language succeeds with language
`"FI"`; and `add_item` with unit count −1 succeeds, making the total
−333. -/
theorem C6_builder_validation_witness :
    PaymentRequest.initCall (some "r") none (some "c") (some "e")
      none none none none (some "FI") "t" = .error .typeError
    ∧ PaymentRequest.initCall (some "r") (some "s") (some "c") (some "e")
      none none none none none "t" =
      .ok (PaymentRequest.init "r" "s" "c" "e" none none none none
        "FI" "t")
    ∧ (PaymentRequest.add_item
        (PaymentRequest.init "r" "s" "c" "e" none none none none "FI" "t")
        "SKU" "2019-01-01" 333 (-1) 24 none none).total_amount = -333 := by
  obtain ⟨h1, h2, h3⟩ := C6_builder_validation (some "r") none (some "c")
    (some "e") none none none none (some "FI") "t"
  refine ⟨h1 (Or.inr (Or.inl rfl)), h2 "r" "s" "c" "e", ?_⟩
  have hadd := (h3 (PaymentRequest.init "r" "s" "c" "e" none none none
    none "FI" "t") "SKU" "2019-01-01" 333 (-1) 24 none none).2
  simpa [PaymentRequest.init] using hadd

/-- Counterexample to C6 as stated: the language may be absent without an
error (the builder then uses `"FI"`), and `add_item` accepts a
non-positive unit count without failing, appending the item. -/
theorem C6_counterexample :
    PaymentRequest.initCall (some "r") (some "s") (some "c") (some "e")
      none none none none none "t" =
      .ok (PaymentRequest.init "r" "s" "c" "e" none none none none
        "FI" "t")
    ∧ (PaymentRequest.add_item
        (PaymentRequest.init "r" "s" "c" "e" none none none none "FI" "t")
        "SKU" "2019-01-01" 333 0 24 none none).items.length = 1 :=
  ⟨rfl, rfl⟩

/-- C7 (amended): `is_response_ok` fails with `KeyError` (the spec's
MissingField kind) whenever `signature` or `checkout-algorithm` is absent
from the parameters map. -/
theorem C7_missing_keys
    (hmacHex : String → String → Bytes → String) (key : String)
    (parameters : List (String × String)) (body : Option Bytes)
    (h : dictLookup parameters "signature" = none ∨
      dictLookup parameters "checkout-algorithm" = none) :
    is_response_ok hmacHex key parameters body = .error .keyError := by
  rcases h with h | h
  · simp [is_response_ok, h]
  · rcases hs : dictLookup parameters "signature" with _ | sig
    · simp [is_response_ok, hs]
    · simp [is_response_ok, hs, h]

/-- Witness for C7 (amended): verification against the empty parameters
map fails with `KeyError`. -/
theorem C7_missing_keys_witness :
    is_response_ok demoHmac "k" [] none = .error .keyError :=
  C7_missing_keys demoHmac "k" [] none (Or.inl rfl)

/-- Counterexample to C7's signing half: `sign_request` on a parameters
map lacking both required keys does not fail — the algorithm is an
explicit argument and no key of the map is read, so the call returns the
digest of the payload. -/
theorem C7_counterexample :
    sign_request demoHmac "k" "x" [] (some [7]) = demoHmac "k" "x" [7] :=
  rfl

/-- C8: the source method `def add_callback_urls(success, cancel)` omits
`self`, so the bound call `pr.add_callback_urls(success, cancel)` passes
three positional arguments to a two-parameter function and raises
`TypeError`: the documented effect on the document is unreachable. -/
theorem C8_add_callback_urls_unreachable :
    bindPositional add_callback_urls_params
      ["<PaymentRequest object>", "https://shop/ok", "https://shop/no"] =
      .error .typeError := rfl

/-- C9: `"%d".format(amount)` is `str.format` on a template without any
replacement field, which returns `"%d"` unchanged, so `list_providers`
requests `amount=%25d` (the encoded literal `%d`) for every amount — not
the decimal serialization of the amount. -/
theorem C9_amount_formatting_bug :
    list_providers_path (some 100) =
      "/merchants/payment-providers?amount=%25d"
    ∧ list_providers_path (some 100) ≠
      "/merchants/payment-providers?amount=100"
    ∧ ∀ a₁ a₂ : Int, list_providers_path (some a₁) =
        list_providers_path (some a₂) := by
  refine ⟨by rfl, by decide, ?_⟩
  intro a₁ a₂
  rfl

end Checkout2
